import Mathlib

/-!
Shallow embedding of `crates/uv-auth/src/credentials.rs`.

Byte strings (Rust `String` / `&[u8]` contents) are modelled as `List Nat`
with each element a byte value.  Rust `String`s are always valid UTF-8, so
theorems that quantify over values that originate from Rust strings carry an
`isValidUtf8` hypothesis.  Panics (`expect`) are modelled as `Except.error ()`.
-/

/-- Byte strings: lists of byte values. -/
abbrev Str := List Nat

deriving instance DecidableEq for Except

/-- The ASCII bytes of the literal `"Basic "`. -/
def basicTag : Str := [66, 97, 115, 105, 99, 32]

/-- ASCII byte of the colon separator. -/
def colonByte : Nat := 58

/-- Value of a base64 sextet (0..63) as an ASCII byte of the standard
alphabet `A-Z a-z 0-9 + /`. -/
def b64EncChar (n : Nat) : Nat :=
  if n < 26 then 65 + n
  else if n < 52 then 97 + (n - 26)
  else if n < 62 then 48 + (n - 52)
  else if n = 62 then 43
  else 47

/-- Inverse of the standard base64 alphabet: ASCII byte to sextet value,
`none` for bytes outside the alphabet (including the `=` pad, byte 61). -/
def b64DecChar (c : Nat) : Option Nat :=
  if 65 ≤ c ∧ c ≤ 90 then some (c - 65)
  else if 97 ≤ c ∧ c ≤ 122 then some (c - 97 + 26)
  else if 48 ≤ c ∧ c ≤ 57 then some (c - 48 + 52)
  else if c = 43 then some 62
  else if c = 47 then some 63
  else none

/-- Standard base64 encoding with `=` padding (the `BASE64_STANDARD` engine
used through `EncoderWriter` in `to_header_value`): input bytes are grouped
in threes, each group yielding four alphabet bytes, a trailing group of one
or two bytes yielding `==` or `=` padding. -/
def base64Encode : List Nat → List Nat
  | [] => []
  | [a] => [b64EncChar (a / 4), b64EncChar (a % 4 * 16), 61, 61]
  | [a, b] => [b64EncChar (a / 4), b64EncChar (a % 4 * 16 + b / 16),
      b64EncChar (b % 16 * 4), 61]
  | a :: b :: c :: rest =>
      b64EncChar (a / 4) :: b64EncChar (a % 4 * 16 + b / 16) ::
      b64EncChar (b % 16 * 4 + c / 64) :: b64EncChar (c % 64) ::
      base64Encode rest

/-- Standard base64 decoding with required canonical `=` padding (the
`BASE64_STANDARD` engine used through `DecoderReader` in
`from_header_value`): the input length must be a multiple of four, padding
may occur only in the final group, and discarded trailing bits must be
zero. -/
def base64Decode : List Nat → Option (List Nat)
  | [] => some []
  | a :: b :: c :: d :: rest =>
    if c = 61 ∧ d = 61 ∧ rest = [] then
      match b64DecChar a, b64DecChar b with
      | some x, some y => if y % 16 = 0 then some [x * 4 + y / 16] else none
      | _, _ => none
    else if d = 61 ∧ rest = [] then
      match b64DecChar a, b64DecChar b, b64DecChar c with
      | some x, some y, some z =>
        if z % 4 = 0 then some [x * 4 + y / 16, y % 16 * 16 + z / 4] else none
      | _, _, _ => none
    else
      match b64DecChar a, b64DecChar b, b64DecChar c, b64DecChar d,
          base64Decode rest with
      | some x, some y, some z, some w, some tail =>
        some ((x * 4 + y / 16) :: (y % 16 * 16 + z / 4) :: (z % 4 * 64 + w) :: tail)
      | _, _, _, _, _ => none
  | _ => none

/-- A UTF-8 continuation byte (`0x80..0xBF`). -/
def cont (c : Nat) : Bool := decide (128 ≤ c ∧ c ≤ 191)

/-- One UTF-8 encoded character (RFC 3629) at the head of the byte list:
`some` of the remaining suffix when the leading bytes form one valid
character, `none` otherwise. -/
def utf8Chunk : List Nat → Option (List Nat)
  | [] => none
  | b :: l =>
    if b < 128 then some l
    else if 194 ≤ b ∧ b ≤ 223 then
      match l with
      | c :: l2 => if cont c then some l2 else none
      | [] => none
    else if b = 224 then
      match l with
      | c :: d :: l3 =>
        if decide (160 ≤ c ∧ c ≤ 191) && cont d then some l3 else none
      | _ => none
    else if (225 ≤ b ∧ b ≤ 236) ∨ b = 238 ∨ b = 239 then
      match l with
      | c :: d :: l3 => if cont c && cont d then some l3 else none
      | _ => none
    else if b = 237 then
      match l with
      | c :: d :: l3 =>
        if decide (128 ≤ c ∧ c ≤ 159) && cont d then some l3 else none
      | _ => none
    else if b = 240 then
      match l with
      | c :: d :: e :: l4 =>
        if decide (144 ≤ c ∧ c ≤ 191) && cont d && cont e then some l4 else none
      | _ => none
    else if 241 ≤ b ∧ b ≤ 243 then
      match l with
      | c :: d :: e :: l4 =>
        if cont c && cont d && cont e then some l4 else none
      | _ => none
    else if b = 244 then
      match l with
      | c :: d :: e :: l4 =>
        if decide (128 ≤ c ∧ c ≤ 143) && cont d && cont e then some l4 else none
      | _ => none
    else none

/-- UTF-8 validity checked one character chunk at a time; the fuel argument
(any bound on the number of characters, e.g. the list length) keeps the
recursion structural. -/
def utf8Valid : Nat → List Nat → Bool
  | _, [] => true
  | 0, _ :: _ => false
  | fuel + 1, b :: l =>
    match utf8Chunk (b :: l) with
    | some rest => utf8Valid fuel rest
    | none => false

/-- UTF-8 validity of a byte sequence (RFC 3629), as enforced by Rust's
`String::from_utf8` / `Read::read_to_string`. -/
def isValidUtf8 (l : List Nat) : Bool := utf8Valid l.length l

/-- `decoder.read_to_string(&mut buf)` on a base64 `DecoderReader`: base64
decoding followed by UTF-8 validation; `none` models the `Err` that the
source turns into a panic via `expect`. -/
def readToString (v : Str) : Option Str :=
  match base64Decode v with
  | none => none
  | some bs => if isValidUtf8 bs then some bs else none

/-- `str::split_once(':')`: split at the first colon byte, `none` when no
colon occurs. -/
def splitOnceColon : Str → Option (Str × Str)
  | [] => none
  | x :: rest =>
    if x = colonByte then some ([], rest)
    else match splitOnceColon rest with
      | some (a, b) => some (x :: a, b)
      | none => none

/-- `slice::strip_prefix`: remove a leading literal byte pattern, `none`
when the pattern is not a prefix. -/
def dropLeading : Str → Str → Option Str
  | [], l => some l
  | _ :: _, [] => none
  | p :: ps, x :: xs => if p = x then dropLeading ps xs else none

/-- Value of an ASCII hex digit (case-insensitive), `none` otherwise. -/
def hexVal (c : Nat) : Option Nat :=
  if 48 ≤ c ∧ c ≤ 57 then some (c - 48)
  else if 65 ≤ c ∧ c ≤ 70 then some (c - 65 + 10)
  else if 97 ≤ c ∧ c ≤ 102 then some (c - 97 + 10)
  else none

/-- Byte-level percent-decoding as in the `urlencoding` crate: `%XY` with
two hex digits becomes one byte; a `%` not followed by two hex digits is
kept literally and scanning resumes at the next byte. -/
def percentDecodeBytes : Str → Str
  | [] => []
  | 37 :: a :: b :: rest =>
    match hexVal a, hexVal b with
    | some x, some y => (16 * x + y) :: percentDecodeBytes rest
    | _, _ => 37 :: percentDecodeBytes (a :: b :: rest)
  | x :: rest => x :: percentDecodeBytes rest

/-- `urlencoding::decode`: percent-decode the bytes, then require the result
to be valid UTF-8 (`Err`, hence a panic at the call sites, otherwise). -/
def percentDecode (s : Str) : Option Str :=
  let bs := percentDecodeBytes s
  if isValidUtf8 bs then some bs else none

/-- `Option::is_some_and`. -/
def isSomeAnd (o : Option α) (p : α → Bool) : Bool :=
  match o with
  | some a => p a
  | none => false

/-- The credentials value of `credentials.rs`: an optional username and an
optional password, both byte strings. -/
structure Credentials where
  username : Option Str
  password : Option Str
deriving DecidableEq

/-- A `url::Url` as consumed here: `host_str()` (`none` when the URL has no
host), `username()` (the raw percent-encoded bytes, empty when absent) and
`password()` (raw percent-encoded bytes, `none` when absent). -/
structure Url where
  host : Option String
  username : Str
  password : Option Str
deriving DecidableEq

/-- A netrc `Authenticator` entry: login and password byte strings. -/
structure Authenticator where
  login : Str
  password : Str
deriving DecidableEq

/-- A parsed `Netrc`: its `hosts` map, modelled as an association list with
distinct keys. -/
structure Netrc where
  hosts : List (String × Authenticator)
deriving DecidableEq

/-- `HashMap::get` on the `hosts` association list. -/
def hostsGet : List (String × Authenticator) → String → Option Authenticator
  | [], _ => none
  | kv :: rest, k => if kv.1 = k then some kv.2 else hostsGet rest k

/-- The header name `reqwest::header::AUTHORIZATION`. -/
def authorizationName : String := "authorization"

/-- `HeaderMap::get`: the first value recorded for a name. -/
def getHeader : List (String × Str) → String → Option Str
  | [], _ => none
  | kv :: rest, k => if kv.1 = k then some kv.2 else getHeader rest k

/-- All values recorded for a name, in order. -/
def getAllHeaders : List (String × Str) → String → List Str
  | [], _ => []
  | kv :: rest, k =>
    if kv.1 = k then kv.2 :: getAllHeaders rest k else getAllHeaders rest k

/-- Drop every value recorded for a name. -/
def removeHeader : List (String × Str) → String → List (String × Str)
  | [], _ => []
  | kv :: rest, k =>
    if kv.1 = k then removeHeader rest k else kv :: removeHeader rest k

/-- `HeaderMap::insert`: associate the name with exactly the one new value,
removing all previously recorded values for that name. -/
def insertHeader (hs : List (String × Str)) (k : String) (v : Str) :
    List (String × Str) :=
  removeHeader hs k ++ [(k, v)]

/-- A `reqwest::Request` as consumed here: method, target URL, header
collection and body. -/
structure Request where
  method : String
  url : Url
  headers : List (String × Str)
  body : Str
deriving DecidableEq

/-- `Credentials::new`.  The source guards the username with a
`debug_assert!` (present implies non-empty) that is compiled out of release
builds; the constructor itself performs no normalization. -/
def Credentials.new (username : Option Str) (password : Option Str) :
    Credentials :=
  { username := username, password := password }

/-- `Credentials::is_empty`. -/
def Credentials.is_empty (c : Credentials) : Bool :=
  c.password.isNone && c.username.isNone

/-- `Credentials::from_netrc`: look the URL's host up in the netrc table,
falling back to the `"default"` key; if an expected username is supplied and
differs from the matched entry's login, yield `none`; otherwise yield the
entry's login and password. -/
def Credentials.from_netrc (netrc : Netrc) (url : Url)
    (username : Option Str) : Option Credentials :=
  match url.host with
  | none => none
  | some host =>
    match (hostsGet netrc.hosts host).orElse
        (fun _ => hostsGet netrc.hosts "default") with
    | none => none
    | some entry =>
      if isSomeAnd username (fun u => decide (u ≠ entry.login)) then none
      else some { username := some entry.login,
                  password := some entry.password }

/-- `Credentials::from_url`: `none` when the URL has an empty username and
no password; otherwise percent-decode each populated component, an empty
username becoming `none`.  `Except.error ()` models the `expect` panic on a
component whose percent-decoding is not valid UTF-8. -/
def Credentials.from_url (url : Url) : Except Unit (Option Credentials) :=
  if url.username = [] ∧ url.password = none then Except.ok none
  else
    match
      (if url.username = [] then some none
       else (percentDecode url.username).map some) with
    | none => Except.error ()
    | some username =>
      match
        (match url.password with
         | none => some none
         | some pw => (percentDecode pw).map some) with
      | none => Except.error ()
      | some password =>
        Except.ok (some { username := username, password := password })

/-- `Credentials::from_header_value`: only the `Basic` scheme is
recognized — byte content not starting with `"Basic "` yields `none`; the
remainder is base64-decoded into a UTF-8 string (failure panics, modelled
by `Except.error ()`), which must contain a `:` separator (otherwise the
source panics); the two parts are normalized empty-to-absent. -/
def Credentials.from_header_value (header : Str) :
    Except Unit (Option Credentials) :=
  match dropLeading basicTag header with
  | none => Except.ok none
  | some value =>
    match readToString value with
    | none => Except.error ()
    | some buf =>
      match splitOnceColon buf with
      | none => Except.error ()
      | some (username, password) =>
        Except.ok (some (Credentials.new
          (if username = [] then none else some username)
          (if password = [] then none else some password)))

/-- `Credentials::to_header_value`: the literal bytes `"Basic "` followed by
the base64 encoding of `username:password`, absent components contributing
the empty string (the password is written only when present, which yields
the same bytes as an empty present password). -/
def Credentials.to_header_value (c : Credentials) : Str :=
  basicTag ++ base64Encode
    (c.username.getD [] ++ colonByte :: c.password.getD [])

/-- `Credentials::from_request`: the source evaluates `from_url` on the
request URL, then evaluates `headers.get(AUTHORIZATION).map(from_header_value)?`
as the eager argument of `Option::or` — so a missing `Authorization` header
makes the `?` return `none` for the whole call, and only when the header is
present are the two results combined with `or`. -/
def Credentials.from_request (request : Request) :
    Except Unit (Option Credentials) :=
  match Credentials.from_url request.url with
  | Except.error e => Except.error e
  | Except.ok u =>
    match getHeader request.headers authorizationName with
    | none => Except.ok none
    | some hv =>
      match Credentials.from_header_value hv with
      | Except.error e => Except.error e
      | Except.ok h => Except.ok (u.or h)

/-- `Credentials::authenticate`: overwrite the request's `Authorization`
header with `to_header_value`. -/
def Credentials.authenticate (c : Credentials) (request : Request) :
    Request :=
  { request with
    headers := insertHeader request.headers authorizationName
      (Credentials.to_header_value c) }

/-! ## Helper lemmas -/

theorem b64EncChar_ne_pad (n : Nat) : b64EncChar n ≠ 61 := by
  unfold b64EncChar
  split_ifs <;> omega

theorem b64DecChar_encChar (n : Nat) (h : n < 64) :
    b64DecChar (b64EncChar n) = some n := by
  unfold b64EncChar b64DecChar
  split_ifs <;> first
    | (congr 1; omega)
    | omega

theorem base64_decode_encode (l : List Nat) (h : ∀ b ∈ l, b < 256) :
    base64Decode (base64Encode l) = some l := by
  induction l using base64Encode.induct with
  | case1 => rfl
  | case2 a =>
    have ha : a < 256 := h a (by simp)
    simp only [base64Encode, base64Decode]
    rw [if_pos (by simp)]
    rw [b64DecChar_encChar (a / 4) (by omega),
      b64DecChar_encChar (a % 4 * 16) (by omega)]
    simp only
    rw [if_pos (by omega)]
    congr 2
    omega
  | case3 a b =>
    have ha : a < 256 := h a (by simp)
    have hb : b < 256 := h b (by simp)
    simp only [base64Encode, base64Decode]
    rw [if_neg (by rintro ⟨h1, -⟩; exact b64EncChar_ne_pad _ h1)]
    rw [if_pos (by simp)]
    rw [b64DecChar_encChar (a / 4) (by omega),
      b64DecChar_encChar (a % 4 * 16 + b / 16) (by omega),
      b64DecChar_encChar (b % 16 * 4) (by omega)]
    simp only
    rw [if_pos (by omega)]
    congr 3 <;> omega
  | case4 a b c rest ih =>
    have ha : a < 256 := h a (by simp)
    have hb : b < 256 := h b (by simp)
    have hc : c < 256 := h c (by simp)
    have hrest : ∀ x ∈ rest, x < 256 := fun x hx => h x (by simp [hx])
    simp only [base64Encode, base64Decode]
    rw [if_neg (by rintro ⟨h1, -⟩; exact b64EncChar_ne_pad _ h1)]
    rw [if_neg (by rintro ⟨h1, -⟩; exact b64EncChar_ne_pad _ h1)]
    rw [b64DecChar_encChar (a / 4) (by omega),
      b64DecChar_encChar (a % 4 * 16 + b / 16) (by omega),
      b64DecChar_encChar (b % 16 * 4 + c / 64) (by omega),
      b64DecChar_encChar (c % 64) (by omega), ih hrest]
    simp only
    congr 4 <;> omega

set_option maxHeartbeats 2000000 in
theorem utf8Chunk_shorter (l r : List Nat) (h : utf8Chunk l = some r) :
    r.length < l.length := by
  rcases l with _ | ⟨b, _ | ⟨c, _ | ⟨d, _ | ⟨e, l4⟩⟩⟩⟩ <;>
    simp only [utf8Chunk] at h <;>
    (try split_ifs at h) <;>
    first
      | ((injection h with h2; subst h2; simp) <;> omega)
      | exact absurd h (by simp)

set_option maxHeartbeats 4000000 in
theorem utf8Chunk_append (l m r : List Nat) (h : utf8Chunk l = some r) :
    utf8Chunk (l ++ m) = some (r ++ m) := by
  rcases l with _ | ⟨b, _ | ⟨c, _ | ⟨d, _ | ⟨e, l4⟩⟩⟩⟩ <;>
    simp only [utf8Chunk, List.cons_append, List.nil_append] at h ⊢ <;>
    (try split_ifs at h ⊢) <;>
    first
      | (injection h with h2; subst h2; simp)
      | exact absurd h (by simp)

set_option maxHeartbeats 4000000 in
theorem utf8Chunk_bytes (l r : List Nat) (h : utf8Chunk l = some r)
    (hr : ∀ x ∈ r, x < 256) : ∀ x ∈ l, x < 256 := by
  rcases l with _ | ⟨b, _ | ⟨c, _ | ⟨d, _ | ⟨e, l4⟩⟩⟩⟩ <;>
    simp only [utf8Chunk] at h <;>
    (try simp only [cont, Bool.and_eq_true, decide_eq_true_eq] at h) <;>
    (try split_ifs at h) <;>
    first
      | ((injection h with h2; subst h2;
          simp_all [List.forall_mem_cons, cont]) <;> omega)
      | exact absurd h (by simp)
theorem utf8Valid_mono : ∀ f1 f2 l, l.length ≤ f1 → l.length ≤ f2 →
    utf8Valid f1 l = utf8Valid f2 l := by
  intro f1
  induction f1 with
  | zero =>
    intro f2 l h1 h2
    have he : l = [] := List.eq_nil_of_length_eq_zero (Nat.le_zero.mp h1)
    subst he
    cases f2 <;> rfl
  | succ f ih =>
    intro f2 l h1 h2
    cases l with
    | nil => cases f2 <;> rfl
    | cons b l0 =>
      cases f2 with
      | zero => simp at h2
      | succ f2p =>
        simp only [utf8Valid]
        cases hch : utf8Chunk (b :: l0) with
        | none => rfl
        | some rest =>
          have hlt := utf8Chunk_shorter _ _ hch
          exact ih f2p rest (by simp at h1 hlt ⊢; omega)
            (by simp at h2 hlt ⊢; omega)

theorem isValidUtf8_append (a m : List Nat) (ha : isValidUtf8 a = true)
    (hm : isValidUtf8 m = true) : isValidUtf8 (a ++ m) = true := by
  unfold isValidUtf8 at ha ⊢
  revert a
  suffices h : ∀ fuel a, a.length ≤ fuel → utf8Valid fuel a = true →
      utf8Valid (a ++ m).length (a ++ m) = true from
    fun a ha => h a.length a le_rfl ha
  intro fuel
  induction fuel with
  | zero =>
    intro a h1 h2
    have he : a = [] := List.eq_nil_of_length_eq_zero (Nat.le_zero.mp h1)
    subst he
    simpa [isValidUtf8] using hm
  | succ f ih =>
    intro a h1 h2
    cases a with
    | nil => simpa [isValidUtf8] using hm
    | cons b l0 =>
      simp only [utf8Valid] at h2
      cases hch : utf8Chunk (b :: l0) with
      | none => rw [hch] at h2; simp at h2
      | some rest =>
        rw [hch] at h2
        simp only [] at h2
        have hlt := utf8Chunk_shorter _ _ hch
        have happ := utf8Chunk_append _ m _ hch
        have hgoal := ih rest (by simp at h1 hlt ⊢; omega) h2
        simp only [List.cons_append, List.length_cons]
        simp only [utf8Valid]
        rw [show utf8Chunk (b :: (l0 ++ m)) = some (rest ++ m) from by
          simpa using happ]
        show utf8Valid (l0 ++ m).length (rest ++ m) = true
        rw [utf8Valid_mono (l0 ++ m).length (rest ++ m).length (rest ++ m)
          (by simp at hlt ⊢; omega) le_rfl]
        exact hgoal

theorem isValidUtf8_bytes (l : List Nat) (h : isValidUtf8 l = true) :
    ∀ x ∈ l, x < 256 := by
  unfold isValidUtf8 at h
  revert l
  suffices hh : ∀ fuel l, l.length ≤ fuel → utf8Valid fuel l = true →
      ∀ x ∈ l, x < 256 from fun l h => hh l.length l le_rfl h
  intro fuel
  induction fuel with
  | zero =>
    intro l h1 h2
    have he : l = [] := List.eq_nil_of_length_eq_zero (Nat.le_zero.mp h1)
    subst he
    simp
  | succ f ih =>
    intro l h1 h2
    cases l with
    | nil => simp
    | cons b l0 =>
      simp only [utf8Valid] at h2
      cases hch : utf8Chunk (b :: l0) with
      | none => rw [hch] at h2; simp at h2
      | some rest =>
        rw [hch] at h2
        simp only [] at h2
        have hlt := utf8Chunk_shorter _ _ hch
        exact utf8Chunk_bytes _ _ hch (ih rest (by simp at h1 hlt ⊢; omega) h2)

theorem splitOnceColon_append (u p : Str) (h : colonByte ∉ u) :
    splitOnceColon (u ++ colonByte :: p) = some (u, p) := by
  induction u with
  | nil => simp [splitOnceColon]
  | cons x u ih =>
    simp only [List.mem_cons, not_or] at h
    simp only [List.cons_append, splitOnceColon]
    rw [if_neg (Ne.symm h.1)]
    simp only [List.append_eq]
    rw [ih h.2]

theorem dropLeading_append (p r : Str) : dropLeading p (p ++ r) = some r := by
  induction p with
  | nil => rfl
  | cons x p ih => simp [dropLeading, ih]

theorem dropLeading_none_iff (p l : Str) :
    dropLeading p l = none ↔ ¬ p <+: l := by
  induction p generalizing l with
  | nil => simp [dropLeading, List.nil_prefix]
  | cons x p ih =>
    cases l with
    | nil => simp [dropLeading]
    | cons y l =>
      simp only [dropLeading]
      by_cases hxy : x = y
      · subst hxy
        rw [if_pos rfl, ih]
        simp [List.cons_prefix_cons]
      · rw [if_neg hxy]
        simp [List.cons_prefix_cons, hxy]

theorem percentDecodeBytes_ne_nil (s : Str) (h : s ≠ []) :
    percentDecodeBytes s ≠ [] := by
  rcases s with _ | ⟨x, s⟩
  · exact absurd rfl h
  by_cases h37 : x = 37
  · subst h37
    rcases s with _ | ⟨a, _ | ⟨b, rest⟩⟩
    · simp [percentDecodeBytes]
    · simp [percentDecodeBytes]
    · simp only [percentDecodeBytes]
      rcases hexVal a with _ | y <;> rcases hexVal b with _ | z <;> simp
  · rcases s with _ | ⟨a, _ | ⟨b, rest⟩⟩ <;>
      simp [percentDecodeBytes, h37]

theorem getAllHeaders_append (a b : List (String × Str)) (k : String) :
    getAllHeaders (a ++ b) k = getAllHeaders a k ++ getAllHeaders b k := by
  induction a with
  | nil => rfl
  | cons kv a ih =>
    simp only [List.cons_append, getAllHeaders]
    split_ifs <;> simp [ih]

theorem getAllHeaders_removeHeader_self (hs : List (String × Str))
    (k : String) : getAllHeaders (removeHeader hs k) k = [] := by
  induction hs with
  | nil => rfl
  | cons kv hs ih =>
    simp only [removeHeader]
    split_ifs with h
    · exact ih
    · simp [getAllHeaders, h, ih]

theorem getAllHeaders_removeHeader_ne (hs : List (String × Str))
    (k n : String) (h : n ≠ k) :
    getAllHeaders (removeHeader hs k) n = getAllHeaders hs n := by
  induction hs with
  | nil => rfl
  | cons kv hs ih =>
    by_cases h1 : kv.1 = k
    · have h2 : kv.1 ≠ n := by rw [h1]; exact fun hh => h hh.symm
      simp [removeHeader, getAllHeaders, h1, h2, Ne.symm h, ih]
    · by_cases h2 : kv.1 = n <;>
        simp [removeHeader, getAllHeaders, h1, h2, h, Ne.symm h, ih]

theorem from_header_roundtrip (u p : Str) (hu : isValidUtf8 u = true)
    (hp : isValidUtf8 p = true) (hcolon : colonByte ∉ u) :
    Credentials.from_header_value
        (basicTag ++ base64Encode (u ++ colonByte :: p)) =
      Except.ok (some (Credentials.new (if u = [] then none else some u)
        (if p = [] then none else some p))) := by
  have h58 : isValidUtf8 [colonByte] = true := by decide
  have hvalid : isValidUtf8 (u ++ colonByte :: p) = true := by
    have := isValidUtf8_append u ([colonByte] ++ p) hu
      (isValidUtf8_append [colonByte] p h58 hp)
    simpa using this
  have hbytes : ∀ b ∈ u ++ colonByte :: p, b < 256 := isValidUtf8_bytes _ hvalid
  simp only [Credentials.from_header_value, dropLeading_append, readToString,
    base64_decode_encode _ hbytes, hvalid, if_true,
    splitOnceColon_append u p hcolon]

/-! ## Concrete values used by witnesses and counterexamples -/

/-- The ASCII bytes of `"user"`. -/
def userBytes : Str := [117, 115, 101, 114]

/-- The ASCII bytes of `"pass"`. -/
def passBytes : Str := [112, 97, 115, 115]

/-- The ASCII bytes of `"alice"`. -/
def aliceBytes : Str := [97, 108, 105, 99, 101]

/-- The ASCII bytes of `"bob"`. -/
def bobBytes : Str := [98, 111, 98]

/-- The ASCII bytes of `"pa:ss"`. -/
def paSsBytes : Str := [112, 97, 58, 115, 115]

/-- The ASCII bytes of `"Bearer xyz"`. -/
def bearerBytes : Str := [66, 101, 97, 114, 101, 114, 32, 120, 121, 122]

/-- A URL carrying userinfo credentials `user:pass`. -/
def urlWithCreds : Url :=
  { host := some "example.com", username := userBytes,
    password := some passBytes }

/-- A request to `urlWithCreds` carrying no headers at all. -/
def reqNoHeader : Request :=
  { method := "GET", url := urlWithCreds, headers := [], body := [] }

/-- A URL with a password but an empty username. -/
def urlPasswordOnly : Url :=
  { host := some "example.com", username := [], password := some passBytes }

/-- A netrc table whose exact-host entry has login `alice` while the
`default` entry has login `bob`. -/
def netrcW : Netrc :=
  { hosts := [("example.com", { login := aliceBytes, password := passBytes }),
              ("default", { login := bobBytes, password := passBytes })] }

/-- A netrc table whose only entry has an empty login. -/
def netrcEmptyLogin : Netrc :=
  { hosts := [("example.com", { login := [], password := passBytes })] }

/-- A URL with host `example.com` and no userinfo. -/
def urlPlain : Url :=
  { host := some "example.com", username := [], password := none }

/-- A request with one non-authorization header. -/
def reqW : Request :=
  { method := "GET", url := urlPlain,
    headers := [("content-type", [106, 115, 111, 110])], body := [] }

/-! ## Claims -/

/-- Claim C1 (code bug): the claim states that `from_request` returns the
URL credentials whenever `from_url` yields them, regardless of whether an
`Authorization` header is present.  The code instead evaluates
`headers.get(AUTHORIZATION).map(from_header_value)?` eagerly as the
argument of `Option::or`, so a request whose URL carries credentials but
which has no `Authorization` header yields `none`: the URL credentials are
dropped, contradicting the source's own comments ("First, attempt to
retrieve the credentials from the URL; then, attempt to pull the
credentials from the headers"). -/
theorem c1_from_request_drops_url_credentials :
    Credentials.from_request reqNoHeader = Except.ok none ∧
    Credentials.from_url reqNoHeader.url =
      Except.ok (some { username := some userBytes,
                        password := some passBytes }) :=
  ⟨rfl, rfl⟩

/-- Counterexample to claim C2 as stated: a present empty-string password
does not survive the `to_header_value`/`from_header_value` round trip — it
comes back absent, because `from_header_value` normalizes the empty
substring after the colon to `none`. -/
theorem c2_roundtrip_counterexample :
    Credentials.from_header_value
        (Credentials.to_header_value
          { username := some userBytes, password := some [] }) ≠
      Except.ok (some { username := some userBytes, password := some [] }) :=
  by decide

/-- Claim C2 (amended): `from_header_value` after `to_header_value` is the
identity for credentials whose username is present, non-empty and free of
the colon byte, and whose password is either absent or non-empty (fields
being UTF-8 strings as they are in the source).  A present empty-string
password does not round-trip: it is normalized to absent. -/
theorem c2_roundtrip_amended (u : Str) (p : Option Str)
    (hne : u ≠ []) (hvu : isValidUtf8 u = true) (hcolon : colonByte ∉ u)
    (hp : p = none ∨ ∃ q, p = some q ∧ q ≠ [] ∧ isValidUtf8 q = true) :
    Credentials.from_header_value
        (Credentials.to_header_value { username := some u, password := p }) =
      Except.ok (some { username := some u, password := p }) := by
  rcases hp with rfl | ⟨q, rfl, hqne, hvq⟩
  · have h := from_header_roundtrip u [] hvu (by decide) hcolon
    rw [if_neg hne, if_pos rfl] at h
    exact h
  · have h := from_header_roundtrip u q hvu hvq hcolon
    rw [if_neg hne, if_neg hqne] at h
    exact h

/-- Witness for the amended claim C2 at `user`/`pass`. -/
theorem c2_roundtrip_amended_witness :
    Credentials.from_header_value
        (Credentials.to_header_value
          { username := some userBytes, password := some passBytes }) =
      Except.ok (some { username := some userBytes,
                        password := some passBytes }) :=
  c2_roundtrip_amended userBytes (some passBytes) (by decide) (by decide)
    (by decide) (Or.inr ⟨passBytes, rfl, by decide, by decide⟩)

/-- Membership for association-list lookup: a found entry is in the list. -/
theorem hostsGet_mem (hs : List (String × Authenticator)) (k : String)
    (e : Authenticator) (h : hostsGet hs k = some e) : ∃ kv ∈ hs, kv.2 = e := by
  induction hs with
  | nil => simp [hostsGet] at h
  | cons kv hs ih =>
    simp only [hostsGet] at h
    split_ifs at h with h1
    · exact ⟨kv, by simp, Option.some.inj h⟩
    · obtain ⟨kv2, hmem, hkv⟩ := ih h
      exact ⟨kv2, by simp [hmem], hkv⟩

/-- Counterexample to claim C3 as stated: `from_netrc` copies the matched
entry's login verbatim, so a netrc entry with an empty login produces a
`Credentials` value whose username is present but empty — no normalization
to absent happens. -/
theorem c3_invariant_counterexample :
    Credentials.from_netrc netrcEmptyLogin urlPlain none =
      some { username := some [], password := some passBytes } :=
  rfl

/-- Claim C3 (amended): the "present username is non-empty" invariant holds
unconditionally for values produced by `from_url` and `from_header_value`;
for `new` it holds only under the documented (debug-only) precondition that
a present username argument is non-empty; and for `from_netrc` it holds
only when the logins in the netrc table are non-empty — an empty login is
copied verbatim, not normalized to absent. -/
theorem c3_invariant_amended :
    (∀ url c, Credentials.from_url url = Except.ok (some c) →
      c.username ≠ some []) ∧
    (∀ h c, Credentials.from_header_value h = Except.ok (some c) →
      c.username ≠ some []) ∧
    (∀ u p, (∀ s, u = some s → s ≠ []) →
      (Credentials.new u p).username ≠ some []) ∧
    (∀ n url exp c, (∀ kv ∈ n.hosts, kv.2.login ≠ []) →
      Credentials.from_netrc n url exp = some c → c.username ≠ some []) := by
  refine ⟨?_, ?_, ?_, ?_⟩
  · intro url c hc
    unfold Credentials.from_url at hc
    split at hc
    · simp at hc
    split at hc
    · simp at hc
    rename_i username hmu
    split at hc
    · simp at hc
    rename_i password hmp
    simp only [Except.ok.injEq, Option.some.injEq] at hc
    subst hc
    show username ≠ some []
    split_ifs at hmu with h1
    · injection hmu with h2
      rw [← h2]
      simp
    · cases hpd : percentDecode url.username with
      | none => rw [hpd] at hmu; simp at hmu
      | some d =>
        rw [hpd] at hmu
        simp only [Option.map_some'] at hmu
        have h2 : username = some d := (Option.some.inj hmu).symm
        rw [h2]
        unfold percentDecode at hpd
        simp only [] at hpd
        split_ifs at hpd with h3
        injection hpd with h4
        rw [← h4]
        intro hcon
        injection hcon with h5
        exact percentDecodeBytes_ne_nil url.username h1 h5
  · intro h c hc
    unfold Credentials.from_header_value at hc
    split at hc
    · simp at hc
    split at hc
    · simp at hc
    split at hc
    · simp at hc
    rename_i buf username password hsp
    simp only [Credentials.new, Except.ok.injEq, Option.some.injEq] at hc
    subst hc
    show (if username = [] then none else some username) ≠ some []
    split_ifs with h1
    · simp
    · intro hcon
      injection hcon with h2
      exact h1 h2
  · intro u p hpre
    cases hu : u with
    | none => simp [Credentials.new]
    | some s =>
      simp only [Credentials.new]
      intro hcon
      injection hcon with h2
      exact hpre s hu h2
  · intro n url exp c hlogins hc
    unfold Credentials.from_netrc at hc
    split at hc
    · simp at hc
    rename_i host hh
    split at hc
    · simp at hc
    rename_i entry hent
    by_cases hm : (isSomeAnd exp fun u => decide (u ≠ entry.login)) = true
    · rw [if_pos hm] at hc
      simp at hc
    rw [if_neg hm] at hc
    simp only [Option.some.injEq] at hc
    subst hc
    show some entry.login ≠ some []
    have hentry : ∃ kv ∈ n.hosts, kv.2 = entry := by
      rcases he : hostsGet n.hosts host with _ | e1
      · rw [he] at hent
        simp only [Option.orElse.eq_def] at hent
        exact hostsGet_mem _ _ _ hent
      · rw [he] at hent
        simp only [Option.orElse.eq_def] at hent
        obtain rfl := Option.some.inj hent
        exact hostsGet_mem _ _ _ he
    obtain ⟨kv, hmem, hkv⟩ := hentry
    have hlog := hlogins kv hmem
    rw [hkv] at hlog
    intro hcon
    injection hcon with h2
    exact hlog h2

/-- Witness for the amended claim C3: a well-formed netrc table (non-empty
logins) yields credentials whose username is not present-but-empty. -/
theorem c3_invariant_amended_witness :
    ({ username := some aliceBytes, password := some passBytes } :
      Credentials).username ≠ some [] :=
  c3_invariant_amended.2.2.2 netrcW urlPlain none
    { username := some aliceBytes, password := some passBytes }
    (by decide) rfl

/-- Claim C4: if the matched netrc entry (exact host match, falling back to
the `"default"` key) has a login different from a supplied expected
username, `from_netrc` yields absent — regardless of what else the table
contains, in particular even when a `"default"` entry with the expected
login exists. -/
theorem c4_from_netrc_username_mismatch (n : Netrc) (url : Url)
    (host : String) (entry : Authenticator) (uexp : Str)
    (hh : url.host = some host)
    (hent : (hostsGet n.hosts host).orElse
      (fun _ => hostsGet n.hosts "default") = some entry)
    (hne : uexp ≠ entry.login) :
    Credentials.from_netrc n url (some uexp) = none := by
  unfold Credentials.from_netrc
  rw [hh]
  simp only [hent]
  simp [isSomeAnd, hne]

/-- Witness for claim C4: the exact-host entry has login `alice`; the
expected username `bob` matches the `default` entry but not the matched
entry, so the lookup yields absent. -/
theorem c4_from_netrc_username_mismatch_witness :
    Credentials.from_netrc netrcW urlPlain (some bobBytes) = none :=
  c4_from_netrc_username_mismatch netrcW urlPlain "example.com"
    { login := aliceBytes, password := passBytes } bobBytes rfl rfl
    (by decide)

/-- Claim C5: `from_url` yields absent exactly when the URL username is
empty and the password is null; whenever it yields credentials, the
username field is the percent-decoding of a non-empty URL username (absent
for an empty one) and the password field is the percent-decoding of the URL
password when present. -/
theorem c5_from_url_characterization (url : Url) :
    (Credentials.from_url url = Except.ok none ↔
      url.username = [] ∧ url.password = none) ∧
    (∀ c, Credentials.from_url url = Except.ok (some c) →
      c.username = (if url.username = [] then none
        else percentDecode url.username) ∧
      c.password = url.password.bind percentDecode) := by
  constructor
  · constructor
    · intro hc
      by_contra h0
      unfold Credentials.from_url at hc
      rw [if_neg h0] at hc
      split at hc
      · simp at hc
      split at hc
      · simp at hc
      simp at hc
    · intro h0
      unfold Credentials.from_url
      rw [if_pos h0]
  · intro c hc
    unfold Credentials.from_url at hc
    split at hc
    · simp at hc
    split at hc
    · simp at hc
    rename_i username hmu
    split at hc
    · simp at hc
    rename_i password hmp
    simp only [Except.ok.injEq, Option.some.injEq] at hc
    subst hc
    constructor
    · show username = _
      split_ifs at hmu ⊢ with h1
      · exact (Option.some.inj hmu).symm
      · cases hpd : percentDecode url.username with
        | none => rw [hpd] at hmu; simp at hmu
        | some d =>
          rw [hpd] at hmu
          simp only [Option.map_some'] at hmu
          exact (Option.some.inj hmu).symm
    · show password = _
      split at hmp
      · rename_i hpw
        rw [hpw, Option.none_bind]
        exact (Option.some.inj hmp).symm
      · rename_i pw hpw
        rw [hpw, Option.some_bind]
        cases hpd : percentDecode pw with
        | none => rw [hpd] at hmp; simp at hmp
        | some d =>
          rw [hpd] at hmp
          simp only [Option.map_some'] at hmp
          exact (Option.some.inj hmp).symm

/-- Witness for claim C5 at a URL with a password but no username: the
resulting credentials have an absent username and the decoded password. -/
theorem c5_from_url_characterization_witness :
    (({ username := none, password := some passBytes } : Credentials).username
        = (if urlPasswordOnly.username = [] then none
            else percentDecode urlPasswordOnly.username) ∧
     ({ username := none, password := some passBytes } : Credentials).password
        = urlPasswordOnly.password.bind percentDecode) :=
  (c5_from_url_characterization urlPasswordOnly).2
    { username := none, password := some passBytes } rfl

/-- Claim C6: a header whose bytes do not start with the literal
`"Basic "` makes `from_header_value` yield absent, never a failure; a
failure (panic) happens exactly when the header does start with `"Basic "`
and the remainder either fails base64 decoding to a UTF-8 string or decodes
to a string with no `:` separator. -/
theorem c6_from_header_value_scheme (h : Str) :
    (¬ basicTag <+: h → Credentials.from_header_value h = Except.ok none) ∧
    (Credentials.from_header_value h = Except.error () ↔
      ∃ v, dropLeading basicTag h = some v ∧
        (readToString v = none ∨
          ∃ buf, readToString v = some buf ∧ splitOnceColon buf = none)) := by
  constructor
  · intro hp
    unfold Credentials.from_header_value
    rw [(dropLeading_none_iff basicTag h).mpr hp]
  · unfold Credentials.from_header_value
    cases hdl : dropLeading basicTag h with
    | none => simp
    | some v =>
      cases hrs : readToString v with
      | none => simp [hrs]
      | some buf =>
        cases hsp : splitOnceColon buf with
        | none => simp [hrs, hsp]
        | some up =>
          obtain ⟨uu, pp⟩ := up
          simp [hrs, hsp]

/-- Witness for claim C6: a `Bearer` header yields absent, not a failure. -/
theorem c6_from_header_value_scheme_witness :
    Credentials.from_header_value bearerBytes = Except.ok none :=
  (c6_from_header_value_scheme bearerBytes).1 (by decide)

/-- Claim C7: after `authenticate`, the request's header collection holds
exactly one `Authorization` value, namely `to_header_value` of the
credentials — any pre-existing values are removed, never kept or appended
to. -/
theorem c7_authenticate_single_authorization (c : Credentials)
    (r : Request) :
    getAllHeaders (Credentials.authenticate c r).headers authorizationName =
      [Credentials.to_header_value c] := by
  unfold Credentials.authenticate insertHeader
  simp only []
  rw [getAllHeaders_append, getAllHeaders_removeHeader_self]
  simp [getAllHeaders]

/-- Claim C8: `to_header_value` is the literal `"Basic "` bytes followed by
the padded standard base64 encoding of `username:password` with absent
fields contributing empty strings; decoding the base64 part recovers
exactly those payload bytes. -/
theorem c8_to_header_value_format (c : Credentials)
    (hu : ∀ b ∈ c.username.getD [], b < 256)
    (hp : ∀ b ∈ c.password.getD [], b < 256) :
    Credentials.to_header_value c =
      basicTag ++ base64Encode
        (c.username.getD [] ++ colonByte :: c.password.getD []) ∧
    base64Decode (base64Encode
        (c.username.getD [] ++ colonByte :: c.password.getD [])) =
      some (c.username.getD [] ++ colonByte :: c.password.getD []) := by
  refine ⟨rfl, base64_decode_encode _ ?_⟩
  intro b hb
  rcases List.mem_append.mp hb with h1 | h2
  · exact hu b h1
  · rcases List.mem_cons.mp h2 with rfl | h3
    · decide
    · exact hp b h3

/-- Witness for claim C8 at `user`/`pass`. -/
theorem c8_to_header_value_format_witness :
    Credentials.to_header_value
        { username := some userBytes, password := some passBytes } =
      basicTag ++ base64Encode
        ((some userBytes).getD [] ++ colonByte :: (some passBytes).getD []) ∧
    base64Decode (base64Encode
        ((some userBytes).getD [] ++ colonByte :: (some passBytes).getD [])) =
      some ((some userBytes).getD [] ++ colonByte :: (some passBytes).getD []) :=
  c8_to_header_value_format
    { username := some userBytes, password := some passBytes }
    (by decide) (by decide)

/-- Claim C9: `authenticate` changes only the `Authorization` entry of the
header collection; every other header name keeps exactly its values, and
the method, URL and body of the request are unchanged. -/
theorem c9_authenticate_frame (c : Credentials) (r : Request) :
    (∀ n, n ≠ authorizationName →
      getAllHeaders (Credentials.authenticate c r).headers n =
        getAllHeaders r.headers n) ∧
    (Credentials.authenticate c r).method = r.method ∧
    (Credentials.authenticate c r).url = r.url ∧
    (Credentials.authenticate c r).body = r.body := by
  refine ⟨?_, rfl, rfl, rfl⟩
  intro n hn
  unfold Credentials.authenticate insertHeader
  simp only []
  rw [getAllHeaders_append, getAllHeaders_removeHeader_ne _ _ _ hn]
  simp [getAllHeaders, Ne.symm hn]

/-- Witness for claim C9: a `content-type` header survives `authenticate`
unchanged. -/
theorem c9_authenticate_frame_witness :
    getAllHeaders (Credentials.authenticate
        { username := some userBytes, password := some passBytes }
        reqW).headers "content-type" =
      getAllHeaders reqW.headers "content-type" :=
  (c9_authenticate_frame
    { username := some userBytes, password := some passBytes } reqW).1
    "content-type" (by decide)

/-- Claim C10: the base64-decoded payload is split at its first colon only:
a payload `u ++ ":" ++ p` with `u` colon-free and both parts non-empty
yields username `u` and password all of `p`, embedded colons in `p`
included. -/
theorem c10_split_first_colon (u p : Str) (hcolon : colonByte ∉ u)
    (hu : u ≠ []) (hp : p ≠ []) (hvu : isValidUtf8 u = true)
    (hvp : isValidUtf8 p = true) :
    Credentials.from_header_value
        (basicTag ++ base64Encode (u ++ colonByte :: p)) =
      Except.ok (some { username := some u, password := some p }) := by
  have h := from_header_roundtrip u p hvu hvp hcolon
  rw [if_neg hu, if_neg hp] at h
  exact h

/-- Witness for claim C10 at payload `user:pa:ss`: the password keeps its
embedded colon. -/
theorem c10_split_first_colon_witness :
    Credentials.from_header_value
        (basicTag ++ base64Encode (userBytes ++ colonByte :: paSsBytes)) =
      Except.ok (some { username := some userBytes,
                        password := some paSsBytes }) :=
  c10_split_first_colon userBytes paSsBytes (by decide) (by decide)
    (by decide) (by decide) (by decide)
